import Mathlib

/-!
Shallow embedding of `src/grad_desc.c` (linear regression by batch
gradient descent) and verification of its specification.

C `double` values are idealised as elements of a linear ordered field
`K` (instantiated at `ℝ` for analytic statements and at `ℚ` for
concrete evaluations).  The C program keeps the dataset as two parallel
`double` arrays `x`, `y` of common length `n`; here a dataset is a
`List (K × K)` of `(x, y)` pairs, whose length plays the role of `n`.
The C pseudo-random stream (successive results of `rand()`) is modelled
by a function `ℕ → ℕ` giving the value of the i-th call to `rand()`,
each value lying in `[0, RAND_MAX]`.
-/

namespace GradDesc

/-- Embedding of `struct ab { double a, b; }` from `src/grad_desc.c`. -/
structure Ab (K : Type) where
  a : K
  b : K
deriving Repr, DecidableEq

/-- Value of C's `RAND_MAX` (glibc: 2^31 - 1); `rand()` returns an
integer in `[0, RAND_MAX]`, both ends included. -/
def RAND_MAX : ℕ := 2147483647

variable {K : Type} [LinearOrderedField K]

/-- Embedding of `get_random_number` (src/grad_desc.c:33-36):
`((double) rand() / (double) RAND_MAX) * upper_bound`, where `r` is the
value returned by this call to `rand()`. -/
def get_random_number (r : ℕ) (upper_bound : ℤ) : K :=
  ((r : K) / (RAND_MAX : K)) * (upper_bound : K)

/-- Embedding of `get_random_data` (src/grad_desc.c:51-69).  The loop
body draws `x_i` with the first `rand()` call of iteration `i` and the
noise with the second, and sets `y_i = a * x_i + b + noise`. -/
def get_random_data (rands : ℕ → ℕ) (n : ℕ) (true_coefs : Ab K)
    (x_ub noise_ub : ℤ) : List (K × K) :=
  (List.range n).map (fun i =>
    let x : K := get_random_number (rands (2 * i)) x_ub
    let y : K := (true_coefs.a * x + true_coefs.b) +
      get_random_number (rands (2 * i + 1)) noise_ub
    (x, y))

/-- Embedding of `get_loss` (src/grad_desc.c:82-94): accumulates
`square_sum += pow(y_true - y_pred, 2)` with `y_pred = x * a + b` over
the dataset, then returns `square_sum / n`. -/
def get_loss (data : List (K × K)) (current_coefs : Ab K) : K :=
  (data.foldl
    (fun square_sum p =>
      square_sum + (p.2 - (p.1 * current_coefs.a + current_coefs.b)) ^ 2)
    0) / (data.length : K)

/-- Embedding of `get_loss_gradient` (src/grad_desc.c:107-123):
accumulates `a_grad += -x * (y - (a*x + b))` and
`b_grad += -(y - (a*x + b))` over the dataset, then returns
`{a = a_grad * 2 / n, b = b_grad * 2 / n}`. -/
def get_loss_gradient (data : List (K × K)) (current_coefs : Ab K) : Ab K :=
  let a_grad : K := data.foldl
    (fun acc p =>
      acc + (-p.1 * (p.2 - (current_coefs.a * p.1 + current_coefs.b)))) 0
  let b_grad : K := data.foldl
    (fun acc p =>
      acc + (-(p.2 - (current_coefs.a * p.1 + current_coefs.b)))) 0
  { a := (a_grad * 2) / (data.length : K)
    b := (b_grad * 2) / (data.length : K) }

/-- Embedding of `do_step` (src/grad_desc.c:137-145): one gradient-descent
update `new = cur - learning_rate * grad`. -/
def do_step (data : List (K × K)) (current_coefs : Ab K)
    (learning_rate : K) : Ab K :=
  let grad := get_loss_gradient data current_coefs
  { a := current_coefs.a - learning_rate * grad.a
    b := current_coefs.b - learning_rate * grad.b }

/-- Embedding of the optimisation loop in `main` (src/grad_desc.c:168-170):
`for (i = 0; i < steps; i++) current_coefs = do_step(...)`, generalised
over the step count as in the spec's `optimize` contract. -/
def optimize (data : List (K × K)) (current_coefs : Ab K)
    (learning_rate : K) : ℕ → Ab K
  | 0 => current_coefs
  | steps + 1 =>
      optimize data (do_step data current_coefs learning_rate)
        learning_rate steps

/-- Configuration constant `LEARNING_RATE` (src/grad_desc.c:12). -/
def LEARNING_RATE : K := 1 / 1000

/-- Configuration constant `STEPS` (src/grad_desc.c:13). -/
def STEPS : ℕ := 100000

/-- Configuration constant `X_UB` (src/grad_desc.c:14). -/
def X_UB : ℤ := 20

/-- Configuration constant `NOISE_UB` (src/grad_desc.c:15). -/
def NOISE_UB : ℤ := 1

/-- Configuration constant `DATA_SIZE` (src/grad_desc.c:16). -/
def DATA_SIZE : ℕ := 2000

/-- True coefficients `{.a = TRUE_A, .b = TRUE_B}` (src/grad_desc.c:17-18,159). -/
def true_coefs : Ab K := { a := 4, b := 2 }

/-- Initial iterate `{.a = 1, .b = 0}` set in `main` (src/grad_desc.c:160). -/
def initial_coefs : Ab K := { a := 1, b := 0 }

/-- Values reported by one run of `main`: the dataset size, the final
coefficients, and the final loss.  The process termination status is not
modelled: `main` is declared `void` and computes none. -/
structure MainResult (K : Type) where
  n : ℕ
  final_coefs : Ab K
  final_loss : K
deriving Repr

/-- Embedding of the computation performed by `main`
(src/grad_desc.c:152-182): generate the dataset, run `STEPS` iterations
of `do_step` from `initial_coefs`, and evaluate the final loss it
reports. -/
def c_main (rands : ℕ → ℕ) : MainResult K :=
  let data : List (K × K) :=
    get_random_data rands DATA_SIZE true_coefs X_UB NOISE_UB
  let final := optimize data initial_coefs LEARNING_RATE STEPS
  { n := DATA_SIZE
    final_coefs := final
    final_loss := get_loss data final }

/-- Divisors used by `get_loss`: the single division `square_sum / n`
at src/grad_desc.c:93. -/
def get_loss_divisors (data : List (K × K)) : List K :=
  [(data.length : K)]

/-- Divisors used by `get_loss_gradient`: the two divisions
`(a_grad * 2) / n` and `(b_grad * 2) / n` at src/grad_desc.c:119-120. -/
def get_loss_gradient_divisors (data : List (K × K)) : List K :=
  [(data.length : K), (data.length : K)]

/-! Helper lemmas. -/

/-- Left folds that accumulate `+ f p` compute the sum of the mapped list. -/
lemma foldl_add_eq_sum (f : (K × K) → K) (l : List (K × K)) (c : K) :
    l.foldl (fun acc p => acc + f p) c = c + (l.map f).sum := by
  induction l generalizing c with
  | nil => simp
  | cons head tail ih =>
      simp only [List.foldl_cons, List.map_cons, List.sum_cons, ih]
      ring

/-- Sum of a list of nonnegative elements is zero iff every element is zero. -/
lemma list_sum_eq_zero_iff_of_nonneg (l : List K) (h : ∀ x ∈ l, 0 ≤ x) :
    l.sum = 0 ↔ ∀ x ∈ l, x = 0 := by
  induction l with
  | nil => simp
  | cons head tail ih =>
      have hh : 0 ≤ head := h head (List.mem_cons_self _ _)
      have ht : ∀ x ∈ tail, 0 ≤ x := fun x hx => h x (List.mem_cons_of_mem _ hx)
      have htail : 0 ≤ tail.sum := List.sum_nonneg ht
      simp only [List.sum_cons, List.mem_cons]
      rw [add_eq_zero_iff_of_nonneg hh htail, ih ht]
      constructor
      · rintro ⟨h0, hrest⟩ x (rfl | hx)
        · exact h0
        · exact hrest x hx
      · intro hall
        exact ⟨hall head (Or.inl rfl), fun x hx => hall x (Or.inr hx)⟩

/-- Derivative in the slope of one squared-residual term of the loss. -/
lemma hasDerivAt_term_a (x y cb ca : ℝ) :
    HasDerivAt (fun a : ℝ => (y - (x * a + cb)) ^ 2)
      (2 * (-x * (y - (ca * x + cb)))) ca := by
  have h2 : HasDerivAt (fun a : ℝ => y - (x * a + cb)) (-(x * 1)) ca :=
    (((hasDerivAt_id ca).const_mul x).add_const cb).const_sub y
  have h3 := h2.pow 2
  convert h3 using 1
  push_cast
  ring

/-- Derivative in the intercept of one squared-residual term of the loss. -/
lemma hasDerivAt_term_b (x y ca cb : ℝ) :
    HasDerivAt (fun b : ℝ => (y - (x * ca + b)) ^ 2)
      (2 * (-(y - (ca * x + cb)))) cb := by
  have h2 : HasDerivAt (fun b : ℝ => y - (x * ca + b)) (-(1 : ℝ)) cb :=
    ((hasDerivAt_id cb).const_add (x * ca)).const_sub y
  have h3 := h2.pow 2
  convert h3 using 1
  push_cast
  ring

/-- Derivative in the slope of the summed squared residuals. -/
lemma hasDerivAt_loss_sum_a (l : List (ℝ × ℝ)) (ca cb : ℝ) :
    HasDerivAt (fun a : ℝ =>
        ((l.map (fun p => (p.2 - (p.1 * a + cb)) ^ 2)).sum))
      ((l.map (fun p => 2 * (-p.1 * (p.2 - (ca * p.1 + cb))))).sum) ca := by
  induction l with
  | nil => simpa using hasDerivAt_const ca (0 : ℝ)
  | cons head tail ih =>
      simp only [List.map_cons, List.sum_cons]
      exact (hasDerivAt_term_a head.1 head.2 cb ca).add ih

/-- Derivative in the intercept of the summed squared residuals. -/
lemma hasDerivAt_loss_sum_b (l : List (ℝ × ℝ)) (ca cb : ℝ) :
    HasDerivAt (fun b : ℝ =>
        ((l.map (fun p => (p.2 - (p.1 * ca + b)) ^ 2)).sum))
      ((l.map (fun p => 2 * (-(p.2 - (ca * p.1 + cb))))).sum) cb := by
  induction l with
  | nil => simpa using hasDerivAt_const cb (0 : ℝ)
  | cons head tail ih =>
      simp only [List.map_cons, List.sum_cons]
      exact (hasDerivAt_term_b head.1 head.2 ca cb).add ih

/-- Slope component of the gradient as a normalised sum. -/
lemma get_loss_gradient_a_eq (data : List (ℝ × ℝ)) (coefs : Ab ℝ) :
    (get_loss_gradient data coefs).a =
      ((data.map
        (fun p => 2 * (-p.1 * (p.2 - (coefs.a * p.1 + coefs.b))))).sum) /
        (data.length : ℝ) := by
  simp only [get_loss_gradient,
    foldl_add_eq_sum
      (fun p => -p.1 * (p.2 - (coefs.a * p.1 + coefs.b))) data 0,
    zero_add, List.sum_map_mul_left]
  ring

/-- Intercept component of the gradient as a normalised sum. -/
lemma get_loss_gradient_b_eq (data : List (ℝ × ℝ)) (coefs : Ab ℝ) :
    (get_loss_gradient data coefs).b =
      ((data.map
        (fun p => 2 * (-(p.2 - (coefs.a * p.1 + coefs.b))))).sum) /
        (data.length : ℝ) := by
  simp only [get_loss_gradient,
    foldl_add_eq_sum
      (fun p => -(p.2 - (coefs.a * p.1 + coefs.b))) data 0,
    zero_add, List.sum_map_mul_left]
  ring

/-- Loss as a function of the slope, in closed (summed) form. -/
lemma get_loss_fun_a (data : List (ℝ × ℝ)) (cb : ℝ) :
    (fun a : ℝ => get_loss data { a := a, b := cb }) =
      (fun a : ℝ =>
        ((data.map (fun p => (p.2 - (p.1 * a + cb)) ^ 2)).sum) /
          (data.length : ℝ)) := by
  funext a
  unfold get_loss
  rw [foldl_add_eq_sum (fun p => (p.2 - (p.1 * a + cb)) ^ 2) data 0, zero_add]

/-- Loss as a function of the intercept, in closed (summed) form. -/
lemma get_loss_fun_b (data : List (ℝ × ℝ)) (ca : ℝ) :
    (fun b : ℝ => get_loss data { a := ca, b := b }) =
      (fun b : ℝ =>
        ((data.map (fun p => (p.2 - (p.1 * ca + b)) ^ 2)).sum) /
          (data.length : ℝ)) := by
  funext b
  unfold get_loss
  rw [foldl_add_eq_sum (fun p => (p.2 - (p.1 * ca + b)) ^ 2) data 0, zero_add]

/-- C2.  The gradient computer returns exactly
`{a := 2 * Σ (-xᵢ rᵢ) / n, b := 2 * Σ (-rᵢ) / n}` with
`rᵢ = yᵢ - (coefs.a xᵢ + coefs.b)`, and this value is the analytic
derivative of the loss evaluator's mean squared error with respect to
the slope and the intercept at `coefs`. -/
theorem get_loss_gradient_is_grad (data : List (ℝ × ℝ))
    (h : 1 ≤ data.length) (coefs : Ab ℝ) :
    get_loss_gradient data coefs =
      { a := 2 * ((data.map
            (fun p => -p.1 * (p.2 - (coefs.a * p.1 + coefs.b)))).sum) /
          (data.length : ℝ)
        b := 2 * ((data.map
            (fun p => -(p.2 - (coefs.a * p.1 + coefs.b)))).sum) /
          (data.length : ℝ) } ∧
    HasDerivAt (fun a : ℝ => get_loss data { a := a, b := coefs.b })
      (get_loss_gradient data coefs).a coefs.a ∧
    HasDerivAt (fun b : ℝ => get_loss data { a := coefs.a, b := b })
      (get_loss_gradient data coefs).b coefs.b := by
  refine ⟨?_, ?_, ?_⟩
  · have ha := get_loss_gradient_a_eq data coefs
    have hb := get_loss_gradient_b_eq data coefs
    rw [List.sum_map_mul_left] at ha hb
    cases hgrad : get_loss_gradient data coefs with
    | mk ga gb =>
        rw [hgrad] at ha hb
        simp only [Ab.mk.injEq]
        exact ⟨ha, hb⟩
  · rw [get_loss_fun_a data coefs.b, get_loss_gradient_a_eq data coefs]
    exact (hasDerivAt_loss_sum_a data coefs.a coefs.b).div_const
      (data.length : ℝ)
  · rw [get_loss_fun_b data coefs.a, get_loss_gradient_b_eq data coefs]
    exact (hasDerivAt_loss_sum_b data coefs.a coefs.b).div_const
      (data.length : ℝ)

/-- Witness for C2 at the dataset `[(1,2)]` and coefficients `(1,1)`. -/
theorem get_loss_gradient_is_grad_witness :
    1 ≤ ([((1 : ℝ), 2)] : List (ℝ × ℝ)).length ∧
    (get_loss_gradient ([((1 : ℝ), 2)] : List (ℝ × ℝ)) { a := 1, b := 1 } =
      { a := 2 * ((([((1 : ℝ), 2)] : List (ℝ × ℝ)).map
            (fun p => -p.1 * (p.2 - ((1 : ℝ) * p.1 + 1)))).sum) /
          (([((1 : ℝ), 2)] : List (ℝ × ℝ)).length : ℝ)
        b := 2 * ((([((1 : ℝ), 2)] : List (ℝ × ℝ)).map
            (fun p => -(p.2 - ((1 : ℝ) * p.1 + 1)))).sum) /
          (([((1 : ℝ), 2)] : List (ℝ × ℝ)).length : ℝ) } ∧
    HasDerivAt
      (fun a : ℝ => get_loss ([((1 : ℝ), 2)] : List (ℝ × ℝ))
        { a := a, b := 1 })
      (get_loss_gradient ([((1 : ℝ), 2)] : List (ℝ × ℝ))
        { a := 1, b := 1 }).a 1 ∧
    HasDerivAt
      (fun b : ℝ => get_loss ([((1 : ℝ), 2)] : List (ℝ × ℝ))
        { a := 1, b := b })
      (get_loss_gradient ([((1 : ℝ), 2)] : List (ℝ × ℝ))
        { a := 1, b := 1 }).b 1) :=
  ⟨by simp, get_loss_gradient_is_grad _ (by simp) _⟩

/-- C1.  The loss evaluator returns the mean squared error
`(1/n) * Σ (y_i - (coefs.a * x_i + coefs.b))²` over all `n ≥ 1`
observations. -/
theorem get_loss_is_mse (data : List (K × K)) (h : 1 ≤ data.length)
    (coefs : Ab K) :
    get_loss data coefs =
      (1 / (data.length : K)) *
        ((data.map (fun p => (p.2 - (coefs.a * p.1 + coefs.b)) ^ 2)).sum) := by
  unfold get_loss
  rw [foldl_add_eq_sum (fun p => (p.2 - (p.1 * coefs.a + coefs.b)) ^ 2) data 0]
  have : (data.map (fun p => (p.2 - (p.1 * coefs.a + coefs.b)) ^ 2)) =
      (data.map (fun p => (p.2 - (coefs.a * p.1 + coefs.b)) ^ 2)) := by
    apply List.map_congr_left
    intro p _
    ring_nf
  rw [this]
  ring

/-- Witness for C1 at the concrete dataset `[(1,2),(3,4)]` and
coefficients `(1,1)` over `ℚ`. -/
theorem get_loss_is_mse_witness :
    1 ≤ ([((1 : ℚ), 2), (3, 4)] : List (ℚ × ℚ)).length ∧
    get_loss ([((1 : ℚ), 2), (3, 4)] : List (ℚ × ℚ)) { a := 1, b := 1 } =
      (1 / (([((1 : ℚ), 2), (3, 4)] : List (ℚ × ℚ)).length : ℚ)) *
        ((([((1 : ℚ), 2), (3, 4)] : List (ℚ × ℚ)).map
          (fun p => (p.2 - ((1 : ℚ) * p.1 + 1)) ^ 2)).sum) :=
  ⟨by decide, get_loss_is_mse _ (by decide) _⟩

/-- C3.  The optimisation loop performs exactly `k` iterations of the
single gradient step: the result is the `k`-fold iterate of `do_step`,
and each step subtracts `learning_rate * grad` componentwise with the
gradient taken on the full dataset at the current coefficients. -/
theorem optimize_is_iterate (data : List (K × K)) (h : 1 ≤ data.length)
    (init : Ab K) (lr : K) (k : ℕ) :
    optimize data init lr k = (fun c => do_step data c lr)^[k] init ∧
    ∀ c : Ab K, do_step data c lr =
      { a := c.a - lr * (get_loss_gradient data c).a
        b := c.b - lr * (get_loss_gradient data c).b } := by
  constructor
  · induction k generalizing init with
    | zero => rfl
    | succ k ih =>
        rw [Function.iterate_succ_apply]
        exact ih (do_step data init lr)
  · intro c
    rfl

/-- Witness for C3 at the dataset `[(1,2)]`, initial coefficients
`(0,0)`, learning rate `1/2`, and `2` steps over `ℚ`. -/
theorem optimize_is_iterate_witness :
    1 ≤ ([((1 : ℚ), 2)] : List (ℚ × ℚ)).length ∧
    (optimize ([((1 : ℚ), 2)] : List (ℚ × ℚ)) { a := 0, b := 0 } (1 / 2) 2 =
      (fun c => do_step ([((1 : ℚ), 2)] : List (ℚ × ℚ)) c (1 / 2))^[2]
        { a := 0, b := 0 } ∧
    ∀ c : Ab ℚ, do_step ([((1 : ℚ), 2)] : List (ℚ × ℚ)) c (1 / 2) =
      { a := c.a - (1 / 2) *
          (get_loss_gradient ([((1 : ℚ), 2)] : List (ℚ × ℚ)) c).a
        b := c.b - (1 / 2) *
          (get_loss_gradient ([((1 : ℚ), 2)] : List (ℚ × ℚ)) c).b }) :=
  ⟨by decide, optimize_is_iterate _ (by decide) _ _ 2⟩

/-- C5.  The loss is nonnegative, and it is zero iff every observation
lies exactly on the line defined by the coefficients. -/
theorem get_loss_nonneg_iff_zero (data : List (K × K))
    (h : 1 ≤ data.length) (coefs : Ab K) :
    0 ≤ get_loss data coefs ∧
    (get_loss data coefs = 0 ↔
      ∀ p ∈ data, p.2 = coefs.a * p.1 + coefs.b) := by
  have hn : (0 : K) < (data.length : K) := by
    exact_mod_cast Nat.lt_of_lt_of_le Nat.zero_lt_one h
  have hsum : get_loss data coefs =
      ((data.map (fun p => (p.2 - (p.1 * coefs.a + coefs.b)) ^ 2)).sum) /
        (data.length : K) := by
    unfold get_loss
    rw [foldl_add_eq_sum]
    ring
  have hnonneg : ∀ x ∈ data.map
      (fun p => (p.2 - (p.1 * coefs.a + coefs.b)) ^ 2), 0 ≤ x := by
    intro x hx
    obtain ⟨p, _, rfl⟩ := List.mem_map.mp hx
    positivity
  constructor
  · rw [hsum]
    exact div_nonneg (List.sum_nonneg hnonneg) (le_of_lt hn)
  · rw [hsum, div_eq_zero_iff]
    constructor
    · rintro (hz | hz)
      · intro p hp
        have := (list_sum_eq_zero_iff_of_nonneg _ hnonneg).mp hz
          ((p.2 - (p.1 * coefs.a + coefs.b)) ^ 2)
          (List.mem_map.mpr ⟨p, hp, rfl⟩)
        have hres : p.2 - (p.1 * coefs.a + coefs.b) = 0 :=
          pow_eq_zero_iff (two_ne_zero) |>.mp this
        have := sub_eq_zero.mp hres
        rw [this]; ring
      · exact absurd hz (ne_of_gt hn)
    · intro hall
      left
      apply (list_sum_eq_zero_iff_of_nonneg _ hnonneg).mpr
      intro x hx
      obtain ⟨p, hp, rfl⟩ := List.mem_map.mp hx
      have : p.2 = coefs.a * p.1 + coefs.b := hall p hp
      rw [this]
      ring

/-- Witness for C5 at the dataset `[(1,2),(3,4)]` and coefficients
`(1,1)` over `ℚ` (every point lies on the line `y = x + 1`). -/
theorem get_loss_nonneg_iff_zero_witness :
    1 ≤ ([((1 : ℚ), 2), (3, 4)] : List (ℚ × ℚ)).length ∧
    (0 ≤ get_loss ([((1 : ℚ), 2), (3, 4)] : List (ℚ × ℚ)) { a := 1, b := 1 } ∧
    (get_loss ([((1 : ℚ), 2), (3, 4)] : List (ℚ × ℚ)) { a := 1, b := 1 } = 0 ↔
      ∀ p ∈ ([((1 : ℚ), 2), (3, 4)] : List (ℚ × ℚ)),
        p.2 = (1 : ℚ) * p.1 + 1)) :=
  ⟨by decide, get_loss_nonneg_iff_zero _ (by decide) _⟩

/-- Counterexample to C4 as stated: when `rand()` returns `RAND_MAX`,
the drawn `x` equals the upper bound exactly, so generated `x` values
are not confined to the half-open interval `[0, xUpperBound)`. -/
theorem get_random_data_attains_x_ub :
    ∃ p ∈ get_random_data (K := ℚ) (fun _ => RAND_MAX) 1
      { a := 4, b := 2 } 20 1, p.1 = (20 : ℚ) := by
  have heq : get_random_data (K := ℚ) (fun _ => RAND_MAX) 1
      { a := 4, b := 2 } 20 1 = [((20 : ℚ), 83)] := by
    simp [get_random_data, get_random_number, RAND_MAX]
    norm_num
  rw [heq]
  exact ⟨(20, 83), List.mem_singleton.mpr rfl, rfl⟩

/-- Range of a single scaled `rand()` draw: it lies in the closed
interval `[0, upper_bound]`. -/
lemma get_random_number_range (r : ℕ) (hr : r ≤ RAND_MAX) (ub : ℤ)
    (hub : 0 ≤ ub) :
    0 ≤ get_random_number (K := K) r ub ∧
      get_random_number (K := K) r ub ≤ (ub : K) := by
  unfold get_random_number
  have hubK : (0 : K) ≤ (ub : K) := by exact_mod_cast hub
  constructor
  · apply mul_nonneg _ hubK
    apply div_nonneg
    · exact_mod_cast Nat.zero_le r
    · exact_mod_cast Nat.zero_le RAND_MAX
  · have h1 : ((r : K) / (RAND_MAX : K)) ≤ 1 := by
      rw [div_le_one]
      · exact_mod_cast hr
      · have hpos : (0 : ℕ) < RAND_MAX := by norm_num [RAND_MAX]
        exact_mod_cast hpos
    calc ((r : K) / (RAND_MAX : K)) * (ub : K)
        ≤ 1 * (ub : K) := mul_le_mul_of_nonneg_right h1 hubK
      _ = (ub : K) := one_mul _

/-- C4 (amended).  With positive bounds and every `rand()` value in
`[0, RAND_MAX]`, each generated observation satisfies
`y = trueCoefs.a * x + trueCoefs.b + e` with `x` in the CLOSED interval
`[0, xUpperBound]` and `e` in the CLOSED interval `[0, noiseUpperBound]`;
the right endpoints are attained exactly when `rand()` returns
`RAND_MAX`. -/
theorem get_random_data_ranges (rands : ℕ → ℕ)
    (hr : ∀ i, rands i ≤ RAND_MAX) (n : ℕ) (hn : 1 ≤ n)
    (tc : Ab K) (x_ub noise_ub : ℤ)
    (hx : 0 < x_ub) (he : 0 < noise_ub) :
    ∀ p ∈ get_random_data (K := K) rands n tc x_ub noise_ub,
      (0 ≤ p.1 ∧ p.1 ≤ (x_ub : K)) ∧
      ∃ e : K, 0 ≤ e ∧ e ≤ (noise_ub : K) ∧
        p.2 = tc.a * p.1 + tc.b + e := by
  intro p hp
  unfold get_random_data at hp
  obtain ⟨i, _, rfl⟩ := List.mem_map.mp hp
  have hxr := get_random_number_range (K := K) (rands (2 * i))
    (hr (2 * i)) x_ub hx.le
  have her := get_random_number_range (K := K) (rands (2 * i + 1))
    (hr (2 * i + 1)) noise_ub he.le
  exact ⟨⟨hxr.1, hxr.2⟩,
    get_random_number (rands (2 * i + 1)) noise_ub, her.1, her.2, rfl⟩

/-- Witness for the amended C4 at the all-zero random stream, `n = 1`,
true coefficients `(4,2)`, bounds `20` and `1`, over `ℚ`. -/
theorem get_random_data_ranges_witness :
    (∀ i : ℕ, (fun _ : ℕ => 0) i ≤ RAND_MAX) ∧ 1 ≤ 1 ∧
    (0 : ℤ) < 20 ∧ (0 : ℤ) < 1 ∧
    ∀ p ∈ get_random_data (K := ℚ) (fun _ => 0) 1
      { a := 4, b := 2 } 20 1,
      (0 ≤ p.1 ∧ p.1 ≤ ((20 : ℤ) : ℚ)) ∧
      ∃ e : ℚ, 0 ≤ e ∧ e ≤ ((1 : ℤ) : ℚ) ∧
        p.2 = (4 : ℚ) * p.1 + 2 + e :=
  ⟨fun _ => Nat.zero_le _, le_refl 1, by decide, by decide,
    get_random_data_ranges (K := ℚ) (fun _ => 0) (fun _ => Nat.zero_le _) 1
      (le_refl 1) { a := 4, b := 2 } 20 1 (by decide) (by decide)⟩

/-- C6.  Running the optimiser with step count `0` returns the initial
coefficients unchanged. -/
theorem optimize_zero_steps (data : List (K × K)) (init : Ab K) (lr : K) :
    optimize data init lr 0 = init :=
  rfl

/-- C7.  The optimisation loop is deterministic: equal datasets, equal
initial coefficients, equal learning rates and equal step counts give
exactly equal final coefficients (the loop consumes no randomness). -/
theorem optimize_deterministic (d₁ d₂ : List (K × K)) (c₁ c₂ : Ab K)
    (l₁ l₂ : K) (k₁ k₂ : ℕ)
    (hd : d₁ = d₂) (hc : c₁ = c₂) (hl : l₁ = l₂) (hk : k₁ = k₂) :
    optimize d₁ c₁ l₁ k₁ = optimize d₂ c₂ l₂ k₂ := by
  subst hd; subst hc; subst hl; subst hk; rfl

/-- Witness for C7 at the dataset `[(1,2)]`, coefficients `(1,0)`,
learning rate `1/2`, step count `3` over `ℚ`. -/
theorem optimize_deterministic_witness :
    ([((1 : ℚ), 2)] : List (ℚ × ℚ)) = ([((1 : ℚ), 2)] : List (ℚ × ℚ)) ∧
    ({ a := 1, b := 0 } : Ab ℚ) = ({ a := 1, b := 0 } : Ab ℚ) ∧
    (1 / 2 : ℚ) = (1 / 2 : ℚ) ∧ (3 : ℕ) = 3 ∧
    optimize ([((1 : ℚ), 2)] : List (ℚ × ℚ)) { a := 1, b := 0 } (1 / 2) 3 =
      optimize ([((1 : ℚ), 2)] : List (ℚ × ℚ)) { a := 1, b := 0 } (1 / 2) 3 :=
  ⟨rfl, rfl, rfl, rfl,
    optimize_deterministic _ _ _ _ _ _ _ _ rfl rfl rfl rfl⟩

/-- C8.  Every division performed by the loss evaluator and the gradient
computer divides by `n`; under the precondition `n ≥ 1` all these
divisors are nonzero, and a zero divisor occurs exactly when `n = 0`. -/
theorem divisions_by_n_wellDefined (data : List (K × K)) :
    (1 ≤ data.length →
      ∀ d ∈ get_loss_divisors data ++ get_loss_gradient_divisors data,
        d ≠ 0) ∧
    ((∃ d ∈ get_loss_divisors data ++ get_loss_gradient_divisors data,
        d = 0) ↔ data.length = 0) := by
  constructor
  · intro h d hd
    have hpos : 0 < data.length := Nat.lt_of_lt_of_le Nat.zero_lt_one h
    have hlen : (data.length : K) ≠ 0 := by
      exact_mod_cast hpos.ne'
    simp only [get_loss_divisors, get_loss_gradient_divisors,
      List.mem_append, List.mem_cons, List.mem_singleton,
      List.not_mem_nil, or_false] at hd
    rcases hd with rfl | rfl | rfl <;> exact hlen
  · simp only [get_loss_divisors, get_loss_gradient_divisors,
      List.mem_append, List.mem_cons, List.mem_singleton,
      List.not_mem_nil, or_false]
    constructor
    · rintro ⟨d, (rfl | rfl | rfl), hz⟩ <;> exact_mod_cast hz
    · intro h
      exact ⟨(data.length : K), Or.inl rfl, by exact_mod_cast h⟩

/-- Witness for C8 at the dataset `[(1,2)]` over `ℚ`. -/
theorem divisions_by_n_wellDefined_witness :
    (1 ≤ ([((1 : ℚ), 2)] : List (ℚ × ℚ)).length →
      ∀ d ∈ get_loss_divisors ([((1 : ℚ), 2)] : List (ℚ × ℚ)) ++
        get_loss_gradient_divisors ([((1 : ℚ), 2)] : List (ℚ × ℚ)),
        d ≠ 0) ∧
    ((∃ d ∈ get_loss_divisors ([((1 : ℚ), 2)] : List (ℚ × ℚ)) ++
        get_loss_gradient_divisors ([((1 : ℚ), 2)] : List (ℚ × ℚ)),
        d = 0) ↔ ([((1 : ℚ), 2)] : List (ℚ × ℚ)).length = 0) :=
  divisions_by_n_wellDefined _

/-- C10.  The optimiser's starting iterate is fixed at `a = 1, b = 0`:
`main` always begins gradient descent from `(1, 0)`, not from the true
coefficients `(4, 2)` nor from `(0, 0)`. -/
theorem main_starts_from_one_zero :
    (initial_coefs : Ab K) = { a := 1, b := 0 } ∧
    (initial_coefs : Ab K) ≠ true_coefs ∧
    (initial_coefs : Ab K) ≠ { a := 0, b := 0 } ∧
    ∀ rands : ℕ → ℕ, (c_main (K := K) rands).final_coefs =
      optimize (K := K)
        (get_random_data rands DATA_SIZE true_coefs X_UB NOISE_UB)
        { a := 1, b := 0 } LEARNING_RATE STEPS := by
  refine ⟨rfl, ?_, ?_, fun _ => by simp only [c_main, initial_coefs]⟩
  · intro hcontra
    have : (1 : K) = 4 := congrArg Ab.a hcontra
    norm_num at this
  · intro hcontra
    have : (1 : K) = 0 := congrArg Ab.a hcontra
    norm_num at this

end GradDesc
